import Mathlib

/-!
A shallow embedding of the bounded single-producer/single-consumer ring
buffer `SPSCQueue<T, PowerOfTwoCapacity>` from
`Lock_Free_Ring_Buffer/spsc_queue.cpp`, together with theorems about its
single-threaded behaviour.

Modelling conventions:
* `std::size_t` indices are `Nat`.  Every stored index is the result of
  `x & MASK` with `MASK = Capacity - 1`, hence `< Capacity`, so no 64-bit
  wraparound can occur on `head + 1` / `tail + 1` and `Nat` is faithful.
* The backing storage `storage_t buf_[CAP]` is a `List (Option α)` of
  length `CAP`; `some v` is a slot holding a live (placement-new
  constructed) element, `none` a vacated/uninitialized slot.  Placement
  new at index `i` is `List.set i (some v)`; an explicit destructor call
  is `List.set i none`.
* Memory orders (`relaxed`/`acquire`/`release`) have no effect on
  single-threaded evaluation and are dropped; the claims settled here are
  the single-threaded ones.
* Reading `*p` from a slot is `(buf.getD i none).getD out`: on the live
  slots the code ever reads (an invariant proved below for reachable
  states) this is exactly the stored value; reading a dead slot is
  undefined behaviour in C++ and never happens in the verified runs.
-/

namespace SPSC

/-- The state of `SPSCQueue<T, PowerOfTwoCapacity>`: the capacity
(`CAP = PowerOfTwoCapacity`), the backing buffer `buf_`, and the two
atomic indices `head_` and `tail_`. -/
structure SPSCQueue (α : Type) where
  cap : Nat
  buf : List (Option α)
  head : Nat
  tail : Nat
deriving DecidableEq, Repr

/-- The constructor `SPSCQueue() : head_(0), tail_(0)`; the backing
storage starts with no live element in any slot. -/
def mkQueue (α : Type) (cap : Nat) : SPSCQueue α :=
  { cap := cap, buf := List.replicate cap none, head := 0, tail := 0 }

variable {α : Type}

/-- `bool try_push(const T &value)` (copy overload, lines 33–44):
load `head_`, compute `next = (head + 1) & MASK`, fail if `next` equals
`tail_`, otherwise placement-new a copy of `value` at slot `head` and
store `next` into `head_`. -/
def try_push (q : SPSCQueue α) (value : α) : Bool × SPSCQueue α :=
  let head := q.head
  let next := (head + 1) &&& (q.cap - 1)
  if next = q.tail then
    (false, q)
  else
    (true, { q with buf := q.buf.set head (some value), head := next })

/-- `bool try_push(T &&value)` (move overload, lines 47–58): identical
control flow; the placement-new uses the move constructor
`T(std::move(value))`, which in the pure model yields the same value. -/
def try_push_move (q : SPSCQueue α) (value : α) : Bool × SPSCQueue α :=
  let head := q.head
  let next := (head + 1) &&& (q.cap - 1)
  if next = q.tail then
    (false, q)
  else
    (true, { q with buf := q.buf.set head (some value), head := next })

/-- `bool try_emplace(Args &&...args)` (lines 61–73): identical control
flow; the placement-new is `T(std::forward<Args>(args)...)`.  The model
takes the constructed element directly. -/
def try_emplace (q : SPSCQueue α) (value : α) : Bool × SPSCQueue α :=
  let head := q.head
  let next := (head + 1) &&& (q.cap - 1)
  if next = q.tail then
    (false, q)
  else
    (true, { q with buf := q.buf.set head (some value), head := next })

/-- `bool try_pop(T &out)` (lines 76–88): load `tail_`, fail if it equals
`head_` (leaving `out` untouched), otherwise `out = *p`, `p->~T()`, and
store `(tail + 1) & MASK` into `tail_`.  The result triple is
(return value, value of `out` after the call, queue state after the
call); `out` is the value the out-parameter held before the call. -/
def try_pop (q : SPSCQueue α) (out : α) : Bool × α × SPSCQueue α :=
  let tail := q.tail
  if tail = q.head then
    (false, out, q)
  else
    let v := (q.buf.getD tail none).getD out
    (true, v, { q with buf := q.buf.set tail none,
                       tail := (tail + 1) &&& (q.cap - 1) })

/-- `bool empty() const` (lines 91–95): `tail_ == head_`. -/
def empty (q : SPSCQueue α) : Bool :=
  q.tail == q.head

/-- `bool full() const` (lines 96–101): `(head_ + 1) & MASK == tail_`. -/
def full (q : SPSCQueue α) : Bool :=
  ((q.head + 1) &&& (q.cap - 1)) == q.tail

/-- The loop of `void clear()` (lines 104–114): while `tail != head`,
destroy the element at slot `tail` and advance `tail` by
`(tail + 1) & MASK`.  The loop is modelled with explicit fuel (the C++
loop terminates because `tail` reaches `head` in fewer than `CAP` steps;
`clearQ` below supplies `CAP` units of fuel, shown sufficient in the
theorems).  The third component records the index of every destructor
call, in execution order. -/
def clearLoop (buf : List (Option α)) (tail head mask : Nat) :
    Nat → List (Option α) × Nat × List Nat
  | 0 => (buf, tail, [])
  | fuel + 1 =>
    if tail = head then
      (buf, tail, [])
    else
      let r := clearLoop (buf.set tail none) ((tail + 1) &&& mask) head mask fuel
      (r.1, r.2.1, tail :: r.2.2)

/-- `void clear()` (lines 104–114): run the drain loop, then store the
final `tail` into `tail_`. -/
def clearQ (q : SPSCQueue α) : SPSCQueue α :=
  let r := clearLoop q.buf q.tail q.head (q.cap - 1) q.cap
  { q with buf := r.1, tail := r.2.1 }

/-- The sequence of slot indices on which `clear()` invokes the element
destructor, in execution order. -/
def clearTrace (q : SPSCQueue α) : List Nat :=
  (clearLoop q.buf q.tail q.head (q.cap - 1) q.cap).2.2

/-- `~SPSCQueue() { clear(); }` (line 24): the destructor performs
exactly the `clear()` drain. -/
def destruct (q : SPSCQueue α) : SPSCQueue α :=
  clearQ q

/-- `try_emplace` where the in-place construction `T(args...)` may
itself fail (throw): `Except.error e` models a throwing constructor.
Control flow from lines 61–73: the full check precedes the placement
new, and `head_.store` follows it, so a throw escapes between the two.
The result is (outcome as seen by the caller, queue state after the
call). -/
def try_emplaceE (q : SPSCQueue α) (ctor : Except Unit α) :
    Except Unit Bool × SPSCQueue α :=
  let head := q.head
  let next := (head + 1) &&& (q.cap - 1)
  if next = q.tail then
    (Except.ok false, q)
  else
    match ctor with
    | Except.error e => (Except.error e, q)
    | Except.ok v =>
      (Except.ok true, { q with buf := q.buf.set head (some v), head := next })

/-- The operations `try_pop` performs on the element type on a
successful pop, transcribed from lines 82–83: `out = *p;` — assignment
from the lvalue `*p`, which selects the copy-assignment operator — and
`p->~T();`. -/
inductive ElemOp where
  | copyAssign
  | moveAssign
  | destroy
deriving DecidableEq, Repr

/-- The element-type operations executed by one `try_pop` call, in
order (lines 76–88): none on the empty path; copy-assignment from the
lvalue `*p` followed by the destructor call on the success path. -/
def try_pop_elem_ops (q : SPSCQueue α) : List ElemOp :=
  if q.tail = q.head then [] else [ElemOp.copyAssign, ElemOp.destroy]

/-- The contents of slot `i` of the backing buffer. -/
def slot (q : SPSCQueue α) (i : Nat) : Option α :=
  q.buf.getD i none

/-- The number of live elements: the length of the half-open index range
`[tail, head)` taken modulo the capacity. -/
def lenq (q : SPSCQueue α) : Nat :=
  (q.cap + q.head - q.tail) % q.cap

/-! ### Arithmetic about indices reduced modulo a power-of-two capacity -/

lemma len_cases (cap head tail : Nat) (hh : head < cap) (ht : tail < cap) :
    (cap + head - tail) % cap =
      if tail ≤ head then head - tail else cap + head - tail := by
  split
  · have h1 : cap + head - tail = cap + (head - tail) := by omega
    rw [h1, Nat.add_mod_left, Nat.mod_eq_of_lt (by omega)]
  · exact Nat.mod_eq_of_lt (by omega)

lemma succ_mod (cap x : Nat) (hx : x < cap) :
    (x + 1) % cap = if x + 1 = cap then 0 else x + 1 := by
  split
  · simp [*]
  · exact Nat.mod_eq_of_lt (by omega)

lemma mod_inj (cap t i j : Nat) (hi : i < cap) (hj : j < cap)
    (h : (t + i) % cap = (t + j) % cap) : i = j := by
  have h2 : i ≡ j [MOD cap] := Nat.ModEq.add_left_cancel' t h
  have h3 : i % cap = j % cap := h2
  rwa [Nat.mod_eq_of_lt hi, Nat.mod_eq_of_lt hj] at h3

lemma full_iff_len (cap head tail : Nat) (h2 : 2 ≤ cap)
    (hh : head < cap) (ht : tail < cap) :
    (head + 1) % cap = tail ↔ (cap + head - tail) % cap = cap - 1 := by
  rw [len_cases cap head tail hh ht, succ_mod cap head hh]
  split <;> split <;> omega

lemma empty_iff_len (cap head tail : Nat) (hh : head < cap) (ht : tail < cap) :
    tail = head ↔ (cap + head - tail) % cap = 0 := by
  rw [len_cases cap head tail hh ht]
  split <;> omega

lemma tail_add_len (cap head tail : Nat) (hh : head < cap) (ht : tail < cap) :
    (tail + (cap + head - tail) % cap) % cap = head := by
  rw [len_cases cap head tail hh ht]
  split
  · have h1 : tail + (head - tail) = head := by omega
    rw [h1, Nat.mod_eq_of_lt hh]
  · have h1 : tail + (cap + head - tail) = cap + head := by omega
    rw [h1, Nat.add_mod_left, Nat.mod_eq_of_lt hh]

lemma len_push (cap head tail : Nat) (hh : head < cap) (ht : tail < cap)
    (hlt : (cap + head - tail) % cap < cap - 1) :
    (cap + (head + 1) % cap - tail) % cap = (cap + head - tail) % cap + 1 := by
  rw [len_cases cap head tail hh ht] at hlt ⊢
  rw [succ_mod cap head hh]
  by_cases hc : head + 1 = cap
  · rw [if_pos hc, len_cases cap 0 tail (by omega) ht]
    split_ifs at hlt ⊢ <;> omega
  · rw [if_neg hc, len_cases cap (head + 1) tail (by omega) ht]
    split_ifs at hlt ⊢ <;> omega

lemma len_pop (cap head tail : Nat) (hh : head < cap) (ht : tail < cap)
    (hne : tail ≠ head) :
    (cap + head - (tail + 1) % cap) % cap = (cap + head - tail) % cap - 1 := by
  rw [len_cases cap head tail hh ht, succ_mod cap tail ht]
  by_cases hc : tail + 1 = cap
  · rw [if_pos hc, len_cases cap head 0 hh (by omega)]
    split_ifs <;> omega
  · rw [if_neg hc, len_cases cap head (tail + 1) hh (by omega)]
    split_ifs <;> omega

lemma getD_set_ne (l : List (Option α)) (i j : Nat) (a : Option α)
    (h : i ≠ j) : (l.set i a).getD j none = l.getD j none := by
  rw [List.getD_eq_getElem?_getD, List.getD_eq_getElem?_getD,
    List.getElem?_set_ne h]

lemma getD_set_self (l : List (Option α)) (i : Nat) (a : Option α)
    (h : i < l.length) : (l.set i a).getD i none = a := by
  rw [List.getD_eq_getElem?_getD, List.getElem?_set_self h]
  rfl

/-! ### The coupling between a queue state and the abstract FIFO list -/

/-- The coupling invariant between a queue state over a capacity `2 ^ k`
and the abstract list of its live elements, oldest first: the buffer has
the declared length, both indices are reduced, the list has exactly the
length of the live range, and slot `(tail + i) & MASK` holds the list's
`i`-th element. -/
def Rel (k : Nat) (q : SPSCQueue α) (l : List α) : Prop :=
  q.cap = 2 ^ k ∧ 1 ≤ k ∧ q.buf.length = q.cap ∧ q.head < q.cap ∧
    q.tail < q.cap ∧ l.length = lenq q ∧
    ∀ i ∈ List.range l.length, slot q ((q.tail + i) % q.cap) = l[i]?

lemma rel_slot (k : Nat) (q : SPSCQueue α) (l : List α) (h : Rel k q l)
    (i : Nat) (hi : i < l.length) :
    slot q ((q.tail + i) % q.cap) = l[i]? :=
  h.2.2.2.2.2.2 i (List.mem_range.2 hi)

lemma rel_init (k : Nat) (hk : 1 ≤ k) : Rel k (mkQueue α (2 ^ k)) [] := by
  refine ⟨rfl, hk, ?_, Nat.two_pow_pos k, Nat.two_pow_pos k, ?_, ?_⟩
  · simp [mkQueue]
  · simp [mkQueue, lenq]
  · intro i hi
    simp at hi

lemma cap_two_le (k : Nat) (hk : 1 ≤ k) : 2 ≤ 2 ^ k := by
  calc 2 = 2 ^ 1 := rfl
  _ ≤ 2 ^ k := Nat.pow_le_pow_right (by omega) hk

lemma lenq_lt (q : SPSCQueue α) (hpos : 0 < q.cap) : lenq q < q.cap :=
  Nat.mod_lt _ hpos

lemma try_push_eq (q : SPSCQueue α) (v : α) :
    try_push q v =
      if (q.head + 1) &&& (q.cap - 1) = q.tail then (false, q)
      else (true, { q with buf := q.buf.set q.head (some v),
                           head := (q.head + 1) &&& (q.cap - 1) }) := rfl

lemma try_pop_eq (q : SPSCQueue α) (d : α) :
    try_pop q d =
      if q.tail = q.head then (false, d, q)
      else (true, (q.buf.getD q.tail none).getD d,
            { q with buf := q.buf.set q.tail none,
                     tail := (q.tail + 1) &&& (q.cap - 1) }) := rfl

lemma rel_push_succ (k : Nat) (q : SPSCQueue α) (l : List α) (v : α)
    (h : Rel k q l) (hlen : l.length < q.cap - 1) :
    try_push q v = (true, { q with buf := q.buf.set q.head (some v),
                                   head := (q.head + 1) % q.cap }) ∧
      Rel k { q with buf := q.buf.set q.head (some v),
                     head := (q.head + 1) % q.cap } (l ++ [v]) := by
  obtain ⟨hcap, hk, hbuf, hh, ht, hl, hs⟩ := h
  have hpos : 0 < q.cap := by omega
  have h2 : 2 ≤ q.cap := hcap ▸ cap_two_le k hk
  have hmask : (q.head + 1) &&& (q.cap - 1) = (q.head + 1) % q.cap := by
    rw [hcap]
    exact Nat.and_pow_two_sub_one_eq_mod _ k
  have hlenq : lenq q < q.cap - 1 := by
    rw [← hl]
    exact hlen
  have hcond : ¬((q.head + 1) % q.cap = q.tail) := by
    intro hc
    rw [full_iff_len q.cap q.head q.tail h2 hh ht] at hc
    unfold lenq at hlenq
    omega
  have hstep : try_push q v =
      (true, { q with buf := q.buf.set q.head (some v),
                      head := (q.head + 1) % q.cap }) := by
    rw [try_push_eq, hmask, if_neg hcond]
  refine ⟨hstep, hcap, hk, ?_, Nat.mod_lt _ hpos, ht, ?_, ?_⟩
  · simpa using hbuf
  · have hpush := len_push q.cap q.head q.tail hh ht hlenq
    simp only [List.length_append, List.length_singleton, lenq] at hl hpush ⊢
    omega
  · intro i hi
    rw [List.mem_range] at hi
    simp only [List.length_append, List.length_singleton] at hi
    by_cases hi2 : i < l.length
    · have hne : ¬((q.tail + i) % q.cap = q.head) := by
        intro hc
        have htl := tail_add_len q.cap q.head q.tail hh ht
        have hij : i = lenq q :=
          mod_inj q.cap q.tail i (lenq q) (by omega)
            (lenq_lt q hpos) (hc.trans htl.symm)
        omega
      have hset : slot { q with buf := q.buf.set q.head (some v),
                                head := (q.head + 1) % q.cap }
          ((q.tail + i) % q.cap) = slot q ((q.tail + i) % q.cap) := by
        simp only [slot]
        exact getD_set_ne q.buf q.head ((q.tail + i) % q.cap) (some v)
          (fun hc => hne hc.symm)
      rw [hset, hs i (List.mem_range.2 hi2), List.getElem?_append_left hi2]
    · have hieq : i = l.length := by omega
      subst hieq
      have hidx : (q.tail + l.length) % q.cap = q.head := by
        rw [hl]
        exact tail_add_len q.cap q.head q.tail hh ht
      have hset : slot { q with buf := q.buf.set q.head (some v),
                                head := (q.head + 1) % q.cap }
          ((q.tail + l.length) % q.cap) = some v := by
        simp only [slot, hidx]
        exact getD_set_self q.buf q.head (some v) (by omega)
      rw [hset, List.getElem?_concat_length]

lemma rel_push_fail (k : Nat) (q : SPSCQueue α) (l : List α) (v : α)
    (h : Rel k q l) (hlen : l.length = q.cap - 1) :
    try_push q v = (false, q) := by
  obtain ⟨hcap, hk, hbuf, hh, ht, hl, hs⟩ := h
  have h2 : 2 ≤ q.cap := hcap ▸ cap_two_le k hk
  have hmask : (q.head + 1) &&& (q.cap - 1) = (q.head + 1) % q.cap := by
    rw [hcap]
    exact Nat.and_pow_two_sub_one_eq_mod _ k
  have hcond : (q.head + 1) % q.cap = q.tail := by
    rw [full_iff_len q.cap q.head q.tail h2 hh ht]
    unfold lenq at hl
    omega
  rw [try_push_eq, hmask, if_pos hcond]

lemma rel_pop_succ (k : Nat) (q : SPSCQueue α) (x : α) (xs : List α)
    (d : α) (h : Rel k q (x :: xs)) :
    try_pop q d = (true, x, { q with buf := q.buf.set q.tail none,
                                     tail := (q.tail + 1) % q.cap }) ∧
      Rel k { q with buf := q.buf.set q.tail none,
                     tail := (q.tail + 1) % q.cap } xs := by
  obtain ⟨hcap, hk, hbuf, hh, ht, hl, hs⟩ := h
  have hpos : 0 < q.cap := by omega
  have hlenq : xs.length + 1 = lenq q := by
    simpa using hl
  have hne : ¬(q.tail = q.head) := by
    intro hc
    rw [empty_iff_len q.cap q.head q.tail hh ht] at hc
    unfold lenq at hlenq
    omega
  have hmask : (q.tail + 1) &&& (q.cap - 1) = (q.tail + 1) % q.cap := by
    rw [hcap]
    exact Nat.and_pow_two_sub_one_eq_mod _ k
  have hslot0 : q.buf.getD q.tail none = some x := by
    have h0 := hs 0 (by simp)
    simp only [slot, Nat.add_zero, Nat.mod_eq_of_lt ht,
      List.getElem?_cons_zero] at h0
    exact h0
  have hstep : try_pop q d =
      (true, x, { q with buf := q.buf.set q.tail none,
                         tail := (q.tail + 1) % q.cap }) := by
    rw [try_pop_eq, hmask, if_neg hne, hslot0]
    rfl
  refine ⟨hstep, hcap, hk, ?_, hh, Nat.mod_lt _ hpos, ?_, ?_⟩
  · simpa using hbuf
  · have hpop := len_pop q.cap q.head q.tail hh ht hne
    simp only [lenq] at hlenq hpop ⊢
    omega
  · intro i hi
    rw [List.mem_range] at hi
    have hi1 : i + 1 < xs.length + 1 := by omega
    have hql : lenq q < q.cap := lenq_lt q hpos
    have hi2 : i + 1 < q.cap := by omega
    have hidx : ((q.tail + 1) % q.cap + i) % q.cap =
        (q.tail + (i + 1)) % q.cap := by
      rw [Nat.mod_add_mod]
      congr 1
      omega
    have hne2 : ¬((q.tail + (i + 1)) % q.cap = q.tail) := by
      intro hc
      have hc0 : (q.tail + (i + 1)) % q.cap = (q.tail + 0) % q.cap := by
        rw [hc, Nat.add_zero, Nat.mod_eq_of_lt ht]
      have hcontra : i + 1 = 0 :=
        mod_inj q.cap q.tail (i + 1) 0 hi2 hpos hc0
      omega
    have hset : slot { q with buf := q.buf.set q.tail none,
                              tail := (q.tail + 1) % q.cap }
        (((q.tail + 1) % q.cap + i) % q.cap) =
        slot q ((q.tail + (i + 1)) % q.cap) := by
      simp only [slot, hidx]
      exact getD_set_ne q.buf q.tail ((q.tail + (i + 1)) % q.cap) none
        (fun hc => hne2 hc.symm)
    have hsi := hs (i + 1) (List.mem_range.2 hi1)
    rw [List.getElem?_cons_succ] at hsi
    exact hset.trans hsi

lemma rel_pop_fail (k : Nat) (q : SPSCQueue α) (d : α)
    (h : Rel k q []) : try_pop q d = (false, d, q) := by
  obtain ⟨hcap, hk, hbuf, hh, ht, hl, hs⟩ := h
  have heq : q.tail = q.head := by
    rw [empty_iff_len q.cap q.head q.tail hh ht]
    have hl0 : (0 : Nat) = (q.cap + q.head - q.tail) % q.cap := by
      simpa [lenq] using hl
    omega
  rw [try_pop_eq, if_pos heq]

lemma empty_true_iff (k : Nat) (q : SPSCQueue α) (l : List α)
    (h : Rel k q l) : empty q = true ↔ l.length = 0 := by
  obtain ⟨hcap, hk, hbuf, hh, ht, hl, hs⟩ := h
  have hiff := empty_iff_len q.cap q.head q.tail hh ht
  simp only [empty, beq_iff_eq]
  unfold lenq at hl
  omega

lemma full_true_iff (k : Nat) (q : SPSCQueue α) (l : List α)
    (h : Rel k q l) : full q = true ↔ l.length = q.cap - 1 := by
  obtain ⟨hcap, hk, hbuf, hh, ht, hl, hs⟩ := h
  have h2 : 2 ≤ q.cap := hcap ▸ cap_two_le k hk
  have hmask : (q.head + 1) &&& (q.cap - 1) = (q.head + 1) % q.cap := by
    rw [hcap]
    exact Nat.and_pow_two_sub_one_eq_mod _ k
  have hiff := full_iff_len q.cap q.head q.tail h2 hh ht
  simp only [full, hmask, beq_iff_eq]
  unfold lenq at hl
  omega

/-! ### Single-threaded operation sequences -/

/-- One driver operation on a single thread: a `try_push` of a value or
a `try_pop`. -/
inductive Op (α : Type) where
  | push (v : α)
  | pop
deriving DecidableEq, Repr

/-- Execute one operation, threading the queue state and recording the
values accepted by successful `try_push` calls and the values returned
by successful `try_pop` calls; `d` is the junk value the pop
out-parameter holds before each call. -/
def runStep (d : α) (s : SPSCQueue α × List α × List α) (op : Op α) :
    SPSCQueue α × List α × List α :=
  match op with
  | Op.push v =>
    let r := try_push s.1 v
    (r.2, if r.1 then s.2.1 ++ [v] else s.2.1, s.2.2)
  | Op.pop =>
    let r := try_pop s.1 d
    (r.2.2, s.2.1, if r.1 then s.2.2 ++ [r.2.1] else s.2.2)

/-- Execute a sequence of operations on a newly constructed queue of the
given capacity, returning the final queue state, the list of
successfully pushed values, and the list of popped values, in order. -/
def run (d : α) (cap : Nat) (ops : List (Op α)) :
    SPSCQueue α × List α × List α :=
  ops.foldl (runStep d) (mkQueue α cap, [], [])

lemma run_inv (k : Nat) (d : α) (ops : List (Op α)) :
    ∀ (q : SPSCQueue α) (pushed popped : List α),
      (∃ l, Rel k q l ∧ pushed = popped ++ l) →
      ∃ l, Rel k (ops.foldl (runStep d) (q, pushed, popped)).1 l ∧
        (ops.foldl (runStep d) (q, pushed, popped)).2.1 =
          (ops.foldl (runStep d) (q, pushed, popped)).2.2 ++ l := by
  induction ops with
  | nil =>
    intro q pushed popped h
    simpa using h
  | cons op ops ih =>
    intro q pushed popped h
    obtain ⟨l, hrel, hpp⟩ := h
    rw [List.foldl_cons]
    cases op with
    | push v =>
      have hcopy := hrel
      obtain ⟨hcap, hk, hbuf, hh, ht, hl, hs⟩ := hcopy
      have hpos : 0 < q.cap := by omega
      have hle : l.length ≤ q.cap - 1 := by
        have hql := lenq_lt q hpos
        omega
      by_cases hfull : l.length = q.cap - 1
      · have hstep := rel_push_fail k q l v hrel hfull
        have hrs : runStep d (q, pushed, popped) (Op.push v) =
            (q, pushed, popped) := by
          simp [runStep, hstep]
        rw [hrs]
        exact ih q pushed popped ⟨l, hrel, hpp⟩
      · have hlt : l.length < q.cap - 1 := by omega
        obtain ⟨hstep, hrel2⟩ := rel_push_succ k q l v hrel hlt
        have hrs : runStep d (q, pushed, popped) (Op.push v) =
            ({ q with buf := q.buf.set q.head (some v),
                      head := (q.head + 1) % q.cap },
             pushed ++ [v], popped) := by
          simp [runStep, hstep]
        rw [hrs]
        exact ih _ _ _ ⟨l ++ [v], hrel2, by rw [hpp, List.append_assoc]⟩
    | pop =>
      cases l with
      | nil =>
        have hstep := rel_pop_fail k q d hrel
        have hrs : runStep d (q, pushed, popped) Op.pop =
            (q, pushed, popped) := by
          simp [runStep, hstep]
        rw [hrs]
        exact ih q pushed popped ⟨[], hrel, hpp⟩
      | cons x xs =>
        obtain ⟨hstep, hrel2⟩ := rel_pop_succ k q x xs d hrel
        have hrs : runStep d (q, pushed, popped) Op.pop =
            ({ q with buf := q.buf.set q.tail none,
                      tail := (q.tail + 1) % q.cap },
             pushed, popped ++ [x]) := by
          simp [runStep, hstep]
        rw [hrs]
        exact ih _ _ _ ⟨xs, hrel2, by rw [hpp, List.append_assoc]; rfl⟩

/-- Push a whole list of values, one `try_push` per element; the Boolean
is the conjunction of the returned Booleans. -/
def pushAll (q : SPSCQueue α) : List α → Bool × SPSCQueue α
  | [] => (true, q)
  | v :: vs =>
    let r := try_push q v
    let r2 := pushAll r.2 vs
    (r.1 && r2.1, r2.2)

/-- Perform `n` `try_pop` calls; the Boolean is the conjunction of the
returned Booleans. -/
def popN (q : SPSCQueue α) (d : α) : Nat → Bool × SPSCQueue α
  | 0 => (true, q)
  | n + 1 =>
    let r := try_pop q d
    let r2 := popN r.2.2 d n
    (r.1 && r2.1, r2.2)

lemma pushAll_rel (k : Nat) :
    ∀ (vs : List α) (q : SPSCQueue α) (l : List α), Rel k q l →
      l.length + vs.length ≤ q.cap - 1 →
      (pushAll q vs).1 = true ∧ Rel k (pushAll q vs).2 (l ++ vs) := by
  intro vs
  induction vs with
  | nil =>
    intro q l hrel hle
    exact ⟨rfl, by simpa using hrel⟩
  | cons v vs ih =>
    intro q l hrel hle
    have hlt : l.length < q.cap - 1 := by
      simp only [List.length_cons] at hle
      omega
    obtain ⟨hstep, hrel2⟩ := rel_push_succ k q l v hrel hlt
    have hle2 : (l ++ [v]).length + vs.length ≤ q.cap - 1 := by
      simp only [List.length_append, List.length_cons,
        List.length_nil] at hle ⊢
      omega
    obtain ⟨hb, hrel3⟩ := ih _ (l ++ [v]) hrel2 hle2
    refine ⟨?_, ?_⟩
    · show ((try_push q v).1 && (pushAll (try_push q v).2 vs).1) = true
      rw [hstep]
      simpa using hb
    · show Rel k (pushAll (try_push q v).2 vs).2 (l ++ v :: vs)
      rw [hstep]
      simpa [List.append_assoc] using hrel3

lemma popN_rel (k : Nat) (d : α) :
    ∀ (l : List α) (q : SPSCQueue α), Rel k q l →
      (popN q d l.length).1 = true ∧ Rel k (popN q d l.length).2 [] := by
  intro l
  induction l with
  | nil =>
    intro q hrel
    exact ⟨rfl, hrel⟩
  | cons x xs ih =>
    intro q hrel
    obtain ⟨hstep, hrel2⟩ := rel_pop_succ k q x xs d hrel
    obtain ⟨hb, hrel3⟩ := ih _ hrel2
    refine ⟨?_, ?_⟩
    · show ((try_pop q d).1 && (popN (try_pop q d).2.2 d xs.length).1) = true
      rw [hstep]
      simpa using hb
    · show Rel k (popN (try_pop q d).2.2 d xs.length).2 []
      rw [hstep]
      exact hrel3

/-! ### The `clear()` drain loop -/

lemma clearLoop_spec (k : Nat) (head : Nat) (hh : head < 2 ^ k) :
    ∀ (fuel tail : Nat) (buf : List (Option α)), tail < 2 ^ k →
      (2 ^ k + head - tail) % 2 ^ k ≤ fuel →
      ∃ b, clearLoop buf tail head (2 ^ k - 1) fuel =
        (b, head, (List.range ((2 ^ k + head - tail) % 2 ^ k)).map
          (fun i => (tail + i) % 2 ^ k)) := by
  intro fuel
  induction fuel with
  | zero =>
    intro tail buf ht hle
    have hz : (2 ^ k + head - tail) % 2 ^ k = 0 := by omega
    have hte : tail = head := (empty_iff_len (2 ^ k) head tail hh ht).2 hz
    refine ⟨buf, ?_⟩
    rw [hz]
    simp [clearLoop, hte]
  | succ fuel ih =>
    intro tail buf ht hle
    by_cases hte : tail = head
    · have hz : (2 ^ k + head - tail) % 2 ^ k = 0 :=
        (empty_iff_len (2 ^ k) head tail hh ht).1 hte
      refine ⟨buf, ?_⟩
      rw [hz]
      simp [clearLoop, hte]
    · have hpos : 0 < 2 ^ k := Nat.two_pow_pos k
      have hmask : (tail + 1) &&& (2 ^ k - 1) = (tail + 1) % 2 ^ k :=
        Nat.and_pow_two_sub_one_eq_mod _ k
      have hd1 : (2 ^ k + head - tail) % 2 ^ k ≠ 0 := by
        intro hz
        exact hte ((empty_iff_len (2 ^ k) head tail hh ht).2 hz)
      have hpop := len_pop (2 ^ k) head tail hh ht hte
      have ht2 : (tail + 1) % 2 ^ k < 2 ^ k := Nat.mod_lt _ hpos
      have hle2 : (2 ^ k + head - (tail + 1) % 2 ^ k) % 2 ^ k ≤ fuel := by
        omega
      obtain ⟨b, hb⟩ := ih ((tail + 1) % 2 ^ k) (buf.set tail none) ht2 hle2
      refine ⟨b, ?_⟩
      show (if tail = head then (buf, tail, []) else _) = _
      rw [if_neg hte, hmask, hb]
      have hsplit : (2 ^ k + head - tail) % 2 ^ k =
          ((2 ^ k + head - (tail + 1) % 2 ^ k) % 2 ^ k) + 1 := by
        omega
      rw [hsplit, List.range_succ_eq_map, List.map_cons, List.map_map]
      have hhd : (tail + 0) % 2 ^ k = tail := by
        rw [Nat.add_zero]
        exact Nat.mod_eq_of_lt ht
      rw [hhd]
      have htl : ∀ i ∈ List.range ((2 ^ k + head - (tail + 1) % 2 ^ k) % 2 ^ k),
          ((tail + 1) % 2 ^ k + i) % 2 ^ k =
            ((fun i => (tail + i) % 2 ^ k) ∘ Nat.succ) i := by
        intro i hi
        show ((tail + 1) % 2 ^ k + i) % 2 ^ k = (tail + Nat.succ i) % 2 ^ k
        rw [Nat.mod_add_mod]
        congr 1
        omega
      rw [List.map_congr_left htl]

/-! ### The claims -/

/-- C1: for every single-threaded sequence of `try_push`/`try_pop`
operations executed on a newly constructed queue of power-of-two
capacity, the values returned by the successful pops are exactly the
values accepted by the successful pushes, in the same (FIFO) order: the
pushed sequence is the popped sequence followed by the abstract live
contents of the final state. -/
theorem spsc_fifo (k : Nat) (hk : 1 ≤ k) (d : α) (ops : List (Op α)) :
    ∃ l, Rel k (run d (2 ^ k) ops).1 l ∧
      (run d (2 ^ k) ops).2.1 = (run d (2 ^ k) ops).2.2 ++ l :=
  run_inv k d ops (mkQueue α (2 ^ k)) [] [] ⟨[], rel_init k hk, rfl⟩

/-- Witness for C1: pushing 5 and then popping on a capacity-2 queue
pops exactly the pushed value. -/
theorem spsc_fifo_witness :
    ∃ l, Rel 1 (run 0 (2 ^ 1) [Op.push 5, Op.pop]).1 l ∧
      (run 0 (2 ^ 1) [Op.push 5, Op.pop]).2.1 =
        (run 0 (2 ^ 1) [Op.push 5, Op.pop]).2.2 ++ l :=
  spsc_fifo 1 (by decide) 0 [Op.push 5, Op.pop]

/-- C2: on a newly constructed queue of power-of-two capacity
C = 2 ^ k ≥ 2, the first C − 1 `try_push` calls all return true, the
C-th returns false with `full()` true at that point, and after popping
all C − 1 pushed elements `empty()` is true. -/
theorem spsc_full_empty_boundary (k : Nat) (hk : 1 ≤ k) (vs : List α)
    (hvs : vs.length = 2 ^ k - 1) (w d : α) :
    (pushAll (mkQueue α (2 ^ k)) vs).1 = true ∧
    (try_push (pushAll (mkQueue α (2 ^ k)) vs).2 w).1 = false ∧
    full (pushAll (mkQueue α (2 ^ k)) vs).2 = true ∧
    (popN (pushAll (mkQueue α (2 ^ k)) vs).2 d (2 ^ k - 1)).1 = true ∧
    empty (popN (pushAll (mkQueue α (2 ^ k)) vs).2 d (2 ^ k - 1)).2 = true := by
  have hle : ([] : List α).length + vs.length ≤ (mkQueue α (2 ^ k)).cap - 1 := by
    simp [mkQueue, hvs]
  obtain ⟨hb, hrel⟩ := pushAll_rel k vs (mkQueue α (2 ^ k)) [] (rel_init k hk) hle
  rw [List.nil_append] at hrel
  have hcap : (pushAll (mkQueue α (2 ^ k)) vs).2.cap = 2 ^ k := hrel.1
  have hlen : vs.length = (pushAll (mkQueue α (2 ^ k)) vs).2.cap - 1 := by
    rw [hcap, hvs]
  have hfail := rel_push_fail k _ vs w hrel hlen
  have hfull := (full_true_iff k _ vs hrel).2 hlen
  obtain ⟨hpop, hrel2⟩ := popN_rel k d vs _ hrel
  have hempty := (empty_true_iff k _ [] hrel2).2 rfl
  rw [hvs] at hpop hempty
  exact ⟨hb, by rw [hfail], hfull, hpop, hempty⟩

/-- Witness for C2 at capacity 2 with one pushed value. -/
theorem spsc_full_empty_boundary_witness :
    (pushAll (mkQueue Nat (2 ^ 1)) [3]).1 = true ∧
    (try_push (pushAll (mkQueue Nat (2 ^ 1)) [3]).2 4).1 = false ∧
    full (pushAll (mkQueue Nat (2 ^ 1)) [3]).2 = true ∧
    (popN (pushAll (mkQueue Nat (2 ^ 1)) [3]).2 0 (2 ^ 1 - 1)).1 = true ∧
    empty (popN (pushAll (mkQueue Nat (2 ^ 1)) [3]).2 0 (2 ^ 1 - 1)).2 = true :=
  spsc_full_empty_boundary 1 (by decide) [3] (by decide) 4 0

/-- C3: `try_push` returns false exactly when `(head + 1) & mask == tail`
(the `full()` predicate) and then leaves the queue untouched; `try_pop`
returns false exactly when `head == tail` (the `empty()` predicate) and
then leaves both the queue and the out-parameter untouched.  Both
functions are total: full and empty are ordinary Boolean outcomes. -/
theorem spsc_failure_no_side_effects (q : SPSCQueue α) (v d : α) :
    ((try_push q v).1 = false ↔ full q = true) ∧
    (full q = true → (try_push q v).2 = q) ∧
    ((try_pop q d).1 = false ↔ empty q = true) ∧
    (empty q = true → (try_pop q d).2.1 = d ∧ (try_pop q d).2.2 = q) := by
  refine ⟨?_, ?_, ?_, ?_⟩
  · rw [try_push_eq]
    by_cases hc : (q.head + 1) &&& (q.cap - 1) = q.tail <;> simp [full, hc]
  · intro hf
    have hc : (q.head + 1) &&& (q.cap - 1) = q.tail := by
      simpa [full] using hf
    rw [try_push_eq, if_pos hc]
  · rw [try_pop_eq]
    by_cases hc : q.tail = q.head <;> simp [empty, hc]
  · intro he
    have hc : q.tail = q.head := by
      simpa [empty] using he
    rw [try_pop_eq, if_pos hc]
    exact ⟨rfl, rfl⟩

/-- Witness for C3: the failed push on a full capacity-2 queue and the
failed pop on an empty one return false and change nothing. -/
theorem spsc_failure_no_side_effects_witness :
    (try_push (try_push (mkQueue Nat 2) 5).2 7).1 = false ∧
    (try_push (try_push (mkQueue Nat 2) 5).2 7).2 =
      (try_push (mkQueue Nat 2) 5).2 ∧
    (try_pop (mkQueue Nat 2) 0).1 = false ∧
    (try_pop (mkQueue Nat 2) 0).2.1 = 0 ∧
    (try_pop (mkQueue Nat 2) 0).2.2 = mkQueue Nat 2 := by
  have h1 := spsc_failure_no_side_effects (try_push (mkQueue Nat 2) 5).2 7 0
  have h2 := spsc_failure_no_side_effects (mkQueue Nat 2) 7 0
  exact ⟨h1.1.2 (by decide), h1.2.1 (by decide), h2.2.2.1.2 (by decide),
    (h2.2.2.2 (by decide)).1, (h2.2.2.2 (by decide)).2⟩

/-- C5: on any well-formed queue state, `clear()` invokes the element
destructor on exactly the slots of the live range `[tail, head)` modulo
the capacity, in increasing wraparound order, each exactly once, and
afterwards `tail` equals `head`, so the queue is empty; the destructor
performs this same drain. -/
theorem spsc_clear_drains (k : Nat) (q : SPSCQueue α) (hcap : q.cap = 2 ^ k)
    (hk : 1 ≤ k) (hh : q.head < q.cap) (ht : q.tail < q.cap) :
    clearTrace q = (List.range (lenq q)).map (fun i => (q.tail + i) % q.cap) ∧
    (clearTrace q).Nodup ∧
    (clearQ q).tail = q.head ∧
    (clearQ q).head = q.head ∧
    empty (clearQ q) = true ∧
    destruct q = clearQ q := by
  have hpos : 0 < q.cap := by omega
  have hh2 : q.head < 2 ^ k := hcap ▸ hh
  have ht2 : q.tail < 2 ^ k := hcap ▸ ht
  have hdist : (2 ^ k + q.head - q.tail) % 2 ^ k ≤ 2 ^ k := by
    have hm := Nat.mod_lt (2 ^ k + q.head - q.tail) (Nat.two_pow_pos k)
    omega
  obtain ⟨b, hb⟩ := clearLoop_spec k q.head hh2 (2 ^ k) q.tail q.buf ht2 hdist
  have htr : clearTrace q =
      (List.range (lenq q)).map (fun i => (q.tail + i) % q.cap) := by
    show (clearLoop q.buf q.tail q.head (q.cap - 1) q.cap).2.2 = _
    unfold lenq
    rw [hcap, hb]
  have htail : (clearQ q).tail = q.head := by
    show (clearLoop q.buf q.tail q.head (q.cap - 1) q.cap).2.1 = q.head
    rw [hcap, hb]
  refine ⟨htr, ?_, htail, rfl, ?_, rfl⟩
  · rw [htr]
    refine List.Nodup.map_on ?_ (List.nodup_range _)
    intro i hi j hj hij
    rw [List.mem_range] at hi hj
    have hlq : lenq q < q.cap := lenq_lt q hpos
    exact mod_inj q.cap q.tail i j (by omega) (by omega) hij
  · show ((clearQ q).tail == (clearQ q).head) = true
    have hhead : (clearQ q).head = q.head := rfl
    rw [htail, hhead]
    simp

/-- Witness for C5: clearing a capacity-4 queue holding two elements
destroys slots 0 and 1 in order and empties the queue. -/
theorem spsc_clear_drains_witness :
    clearTrace (try_push (try_push (mkQueue Nat 4) 1).2 2).2 =
      (List.range (lenq (try_push (try_push (mkQueue Nat 4) 1).2 2).2)).map
        (fun i => ((try_push (try_push (mkQueue Nat 4) 1).2 2).2.tail + i) %
          (try_push (try_push (mkQueue Nat 4) 1).2 2).2.cap) ∧
    (clearTrace (try_push (try_push (mkQueue Nat 4) 1).2 2).2).Nodup ∧
    (clearQ (try_push (try_push (mkQueue Nat 4) 1).2 2).2).tail =
      (try_push (try_push (mkQueue Nat 4) 1).2 2).2.head ∧
    (clearQ (try_push (try_push (mkQueue Nat 4) 1).2 2).2).head =
      (try_push (try_push (mkQueue Nat 4) 1).2 2).2.head ∧
    empty (clearQ (try_push (try_push (mkQueue Nat 4) 1).2 2).2) = true ∧
    destruct (try_push (try_push (mkQueue Nat 4) 1).2 2).2 =
      clearQ (try_push (try_push (mkQueue Nat 4) 1).2 2).2 :=
  spsc_clear_drains 2 (try_push (try_push (mkQueue Nat 4) 1).2 2).2
    (by decide) (by decide) (by decide) (by decide)

/-- C6: when the in-place construction of the element throws during a
push on a non-full queue, the failure propagates to the caller and the
queue is exactly as before the call: the head index is not advanced and
no slot is written, so no partially constructed element is left live. -/
theorem spsc_push_ctor_failure (q : SPSCQueue α) (h : full q = false) :
    try_emplaceE q (Except.error ()) = (Except.error (), q) := by
  have hc : ¬((q.head + 1) &&& (q.cap - 1) = q.tail) := by
    simpa [full] using h
  simp [try_emplaceE, hc]

/-- Witness for C6 on an empty capacity-2 queue. -/
theorem spsc_push_ctor_failure_witness :
    try_emplaceE (mkQueue Nat 2) (Except.error ()) =
      (Except.error (), mkQueue Nat 2) :=
  spsc_push_ctor_failure (mkQueue Nat 2) (by decide)

/-- C7 is false as stated: on a capacity-2 queue, push 5 (stored in
slot 0), pop it — a pop that removes the element at slot index 0 — and
push 7: the push succeeds but stores the new element at slot 1, while
the just-vacated slot 0 stays unoccupied. -/
theorem spsc_slot_reuse_counterexample :
    (try_push (mkQueue Nat 2) 5).2.tail = 0 ∧
    (try_pop (try_push (mkQueue Nat 2) 5).2 0).1 = true ∧
    (try_push (try_pop (try_push (mkQueue Nat 2) 5).2 0).2.2 7).1 = true ∧
    slot (try_push (try_pop (try_push (mkQueue Nat 2) 5).2 0).2.2 7).2 0 =
      none ∧
    slot (try_push (try_pop (try_push (mkQueue Nat 2) 5).2 0).2.2 7).2 1 =
      some 7 := by
  decide

/-- C7 (amended): after a successful pop that removed the element at
slot i = tail of a queue holding L live elements, the immediately
following `try_push` succeeds and stores its element at slot
(i + L) mod Capacity — the pre-pop head — which is never the vacated
slot i itself; vacated slots are reused by the wraparound indexing only
once the head cursor comes around to them, not via a free-list. -/
theorem spsc_slot_reuse_amended (k : Nat) (q : SPSCQueue α) (x : α)
    (xs : List α) (v d : α) (h : Rel k q (x :: xs)) :
    (try_pop q d).1 = true ∧
    (try_push (try_pop q d).2.2 v).1 = true ∧
    slot (try_push (try_pop q d).2.2 v).2 ((q.tail + lenq q) % q.cap) =
      some v ∧
    (q.tail + lenq q) % q.cap = q.head ∧
    (q.tail + lenq q) % q.cap ≠ q.tail := by
  obtain ⟨hstep, hrel2⟩ := rel_pop_succ k q x xs d h
  have hcap : q.cap = 2 ^ k := h.1
  have hh : q.head < q.cap := h.2.2.2.1
  have ht : q.tail < q.cap := h.2.2.2.2.1
  have hpos : 0 < q.cap := by omega
  have h2 : 2 ≤ q.cap := hcap ▸ cap_two_le k h.2.1
  have hlq : (x :: xs).length = lenq q := h.2.2.2.2.2.1
  have hlqlt : lenq q < q.cap := lenq_lt q hpos
  have hxs : xs.length <
      ({ q with buf := q.buf.set q.tail none,
                tail := (q.tail + 1) % q.cap } : SPSCQueue α).cap - 1 := by
    show xs.length < q.cap - 1
    simp only [List.length_cons] at hlq
    omega
  obtain ⟨hstep2, hrel3⟩ := rel_push_succ k _ xs v hrel2 hxs
  have hta : (q.tail + lenq q) % q.cap = q.head :=
    tail_add_len q.cap q.head q.tail hh ht
  have hne : q.head ≠ q.tail := by
    intro hc
    have hz : lenq q = 0 := by
      have := (empty_iff_len q.cap q.head q.tail hh ht).1 hc.symm
      unfold lenq
      exact this
    simp only [List.length_cons] at hlq
    omega
  refine ⟨by rw [hstep], ?_, ?_, hta, by rw [hta]; exact hne⟩
  · rw [hstep]
    rw [hstep2]
  · rw [hstep, hstep2]
    show ((q.buf.set q.tail none).set q.head (some v)).getD
      ((q.tail + lenq q) % q.cap) none = some v
    rw [hta]
    refine getD_set_self _ _ _ ?_
    have hbuf : q.buf.length = q.cap := h.2.2.1
    simp only [List.length_set]
    omega

/-- Witness for the amended C7: capacity 2 holding one element; the pop
vacates slot 0, the next push succeeds into slot 1 = (0 + 1) mod 2. -/
theorem spsc_slot_reuse_amended_witness :
    (try_pop (try_push (mkQueue Nat 2) 5).2 0).1 = true ∧
    (try_push (try_pop (try_push (mkQueue Nat 2) 5).2 0).2.2 7).1 = true ∧
    slot (try_push (try_pop (try_push (mkQueue Nat 2) 5).2 0).2.2 7).2
      (((try_push (mkQueue Nat 2) 5).2.tail +
        lenq (try_push (mkQueue Nat 2) 5).2) %
        (try_push (mkQueue Nat 2) 5).2.cap) = some 7 ∧
    ((try_push (mkQueue Nat 2) 5).2.tail +
      lenq (try_push (mkQueue Nat 2) 5).2) %
      (try_push (mkQueue Nat 2) 5).2.cap = (try_push (mkQueue Nat 2) 5).2.head ∧
    ((try_push (mkQueue Nat 2) 5).2.tail +
      lenq (try_push (mkQueue Nat 2) 5).2) %
      (try_push (mkQueue Nat 2) 5).2.cap ≠ (try_push (mkQueue Nat 2) 5).2.tail :=
  spsc_slot_reuse_amended 1 (try_push (mkQueue Nat 2) 5).2 5 [] 7 0
    ⟨by decide, by decide, by decide, by decide, by decide, by decide,
      by decide⟩

/-- C8: a successful `try_pop` performs a copy-assignment from the
lvalue `*p` (line 82, `out = *p;`) followed by the destructor call, and
never a move-assignment, so the pop path requires the element type to be
copy-assignable; a movable-but-not-copyable element type therefore does
not compile on the pop path, contrary to the spec's move-only support
requirement (the code slip is `out = *p` instead of moving out of the
slot that is destroyed on the next line). -/
theorem spsc_pop_copy_assigns (q : SPSCQueue α) (h : ¬(q.tail = q.head)) :
    try_pop_elem_ops q = [ElemOp.copyAssign, ElemOp.destroy] ∧
    ElemOp.moveAssign ∉ try_pop_elem_ops q := by
  constructor
  · simp [try_pop_elem_ops, h]
  · simp [try_pop_elem_ops, h]

/-- Witness for C8 on a capacity-2 queue holding one element. -/
theorem spsc_pop_copy_assigns_witness :
    try_pop_elem_ops (try_push (mkQueue Nat 2) 5).2 =
      [ElemOp.copyAssign, ElemOp.destroy] ∧
    ElemOp.moveAssign ∉ try_pop_elem_ops (try_push (mkQueue Nat 2) 5).2 :=
  spsc_pop_copy_assigns (try_push (mkQueue Nat 2) 5).2 (by decide)

/-- C9: the copy-push, the move-push, and the emplace producer
operations return the same Boolean and leave the queue in the same
state, for every starting state and every value. -/
theorem spsc_push_variants_agree (q : SPSCQueue α) (v : α) :
    try_push q v = try_push_move q v ∧ try_push q v = try_emplace q v :=
  ⟨rfl, rfl⟩

/-- C10: in every queue state reachable by a single-threaded sequence of
`try_push`/`try_pop` operations from a newly constructed queue of
power-of-two capacity at least 2, `empty()` and `full()` are never both
true. -/
theorem spsc_never_empty_and_full (k : Nat) (hk : 1 ≤ k) (d : α)
    (ops : List (Op α)) :
    ¬(empty (run d (2 ^ k) ops).1 = true ∧ full (run d (2 ^ k) ops).1 = true) := by
  intro hc
  obtain ⟨he, hf⟩ := hc
  obtain ⟨l, hrel, -⟩ :=
    run_inv k d ops (mkQueue α (2 ^ k)) [] [] ⟨[], rel_init k hk, rfl⟩
  have hz : l.length = 0 := (empty_true_iff k _ l hrel).1 he
  have hfl : l.length = (run d (2 ^ k) ops).1.cap - 1 :=
    (full_true_iff k _ l hrel).1 hf
  have hcap : (run d (2 ^ k) ops).1.cap = 2 ^ k := hrel.1
  have h2 : 2 ≤ 2 ^ k := cap_two_le k hk
  omega

/-- Witness for C10 at capacity 2 on the empty operation sequence. -/
theorem spsc_never_empty_and_full_witness :
    ¬(empty (run 0 (2 ^ 1) ([] : List (Op Nat))).1 = true ∧
      full (run 0 (2 ^ 1) ([] : List (Op Nat))).1 = true) :=
  spsc_never_empty_and_full 1 (by decide) 0 []

end SPSC
